import Mathlib

/-!
# Verification of the `wordvector` word2vec training engine

Shallow embedding of `src/word2vec/word2vec.cpp` (the orchestrator
`word2vec_t::train`) and of the worker declared in
`src/word2vec/trainThread.hpp`, together with proofs of the specified
properties.

Modelling conventions:
* C++ `float` values are modelled as `ℚ`.  The two transcendental
  ingredients that have no exact rational form — `exp` (used to fill the
  sigmoid table) and the `mt19937_64 + uniform_real_distribution` stream
  (used to fill the projection-layer matrix) — are passed in as explicit
  function parameters (`Env`), fixed deterministic algorithms of the seed,
  exactly as in the binary.
* Machine integers are modelled as `Nat`; the one place where wraparound
  matters (the `uint16_t` loop counter filling the exp table) carries an
  explicit `% 65536`.
* Exceptions are modelled with `Except`: the value `Exc.std msg` stands
  for a thrown `std::runtime_error`/`std::exception` whose `what()` is
  `msg`, and `Exc.unknown` for any non-`std::exception` throwable.
  Failures the C++ runtime could raise after validation (allocation
  failure while building the Huffman tree, spawning threads, ...) are
  modelled by an `oracle : Option Exc` parameter injected after worker
  creation; plain assignments and copies are modelled as non-failing.
-/

namespace Wordvector

/-- Exceptions that can cross `word2vec_t::train`'s `try` block:
a `std::exception` with its `what()` message, or anything else. -/
inductive Exc where
  | std (msg : String)
  | unknown
deriving DecidableEq, Repr

/-- The message stored by the two `catch` clauses of `word2vec_t::train`:
`_e.what()` for a `std::exception`, `"unknown error"` otherwise. -/
def excMessage : Exc → String
  | Exc.std msg => msg
  | Exc.unknown => "unknown error"

/-- `settings_t` — the fields of the settings object consumed by the
engine (`word2vec.hpp` is not part of the excerpt; fields and their
meaning follow the uses in `word2vec.cpp`/`trainThread.hpp` and §3/§6 of
the design).  `expTableSize` is a `uint16_t` in the source, hence the
invariant `expTableSize < 65536` carried by the termination theorem. -/
structure Settings where
  size : Nat
  window : Nat
  alpha : ℚ
  minFraction : ℚ
  iterations : Nat
  threads : Nat
  withSG : Bool
  withHS : Bool
  negative : Nat
  expTableSize : Nat
  expValueMax : ℚ
  random : Nat
  verbose : Bool
deriving DecidableEq, Repr

/-- `corpus_t` — the already-built corpus handed to the engine:
vocabulary (`words`), per-word frequency, total trainable word count and
the documents (`texts`), each a sequence of word ids. -/
structure Corpus where
  words : List String
  frequency : List Nat
  trainWords : Nat
  texts : List (List Nat)
deriving DecidableEq, Repr

/-- The members of `word2vec_t` that `train` reads or writes. -/
structure W2VState where
  m_vectorSize : Nat
  m_vocaburarySize : Nat
  m_pjLayerValues : List ℚ
  m_bpWeights : List ℚ
  m_errMsg : String
deriving DecidableEq, Repr

/-- The fixed deterministic algorithms the binary links against:
`E` models `float exp`, and `rng seed i` models the `i`-th draw of
`uniform_real_distribution<float>(-0.005f, 0.005f)` applied to a
`std::mt19937_64` constructed from `seed`.  Both are pure functions, so
two runs of the same binary share them. -/
structure Env where
  E : ℚ → ℚ
  rng : Nat → Nat → ℚ

/-! ## The sigmoid lookup table

`word2vec.cpp` lines 48–55: the table is allocated with
`expTableSize` entries and filled by a loop whose counter `r` is a
`uint16_t`. -/

/-- The value stored at slot `r`:
`s / (s + 1)` where `s = exp((r / expTableSize * 2 - 1) * expValueMax)`. -/
def expEntry (E : ℚ → ℚ) (size : Nat) (maxv : ℚ) (r : Nat) : ℚ :=
  let s := E (((r : ℚ) / (size : ℚ) * 2 - 1) * maxv)
  s / (s + 1)

/-- One trip through the fill loop: if `r < expTableSize`, store slot `r`
and increment the `uint16_t` counter (wrapping at `2^16`); otherwise the
loop has exited and the state is left alone. -/
def expLoopStep (E : ℚ → ℚ) (size : Nat) (maxv : ℚ) :
    Nat × List ℚ → Nat × List ℚ :=
  fun st =>
    if st.1 < size then ((st.1 + 1) % 65536, st.2.set st.1 (expEntry E size maxv st.1))
    else st

/-- The loop has exited: the `r < expTableSize` test fails. -/
def expLoopDone (size : Nat) (st : Nat × List ℚ) : Prop := ¬ st.1 < size

instance (size : Nat) (st : Nat × List ℚ) : Decidable (expLoopDone size st) :=
  inferInstanceAs (Decidable ¬ _)

/-- The table built by `train`: a vector of `expTableSize` default-zero
entries (`new std::vector<float>(settings->expTableSize)`), then the fill
loop run to completion (`size` trips suffice, as proved below). -/
def buildExpTable (E : ℚ → ℚ) (size : Nat) (maxv : ℚ) : List ℚ :=
  ((expLoopStep E size maxv)^[size] (0, List.replicate size 0)).2

/-- Invariant of the fill loop: after `k ≤ size ≤ 65535` trips the
counter equals `k`, the table still has `size` entries, the first `k`
slots hold their final values and the rest are still zero. -/
theorem expLoop_invariant (E : ℚ → ℚ) (size : Nat) (maxv : ℚ)
    (hsize : size < 65536) (k : Nat) (hk : k ≤ size) :
    ((expLoopStep E size maxv)^[k] (0, List.replicate size 0)).1 = k ∧
    ((expLoopStep E size maxv)^[k] (0, List.replicate size 0)).2.length = size ∧
    ∀ r : Nat, r < size →
      ((expLoopStep E size maxv)^[k] (0, List.replicate size 0)).2.getD r 0 =
        if r < k then expEntry E size maxv r else 0 := by
  induction k with
  | zero =>
    refine ⟨rfl, by simp, ?_⟩
    intro r hr
    simp [List.getD_eq_getElem?_getD, List.getElem?_replicate, hr]
  | succ k ih =>
    have hk' : k ≤ size := Nat.le_of_succ_le hk
    obtain ⟨h1, h2, h3⟩ := ih hk'
    rw [Function.iterate_succ_apply']
    set st := (expLoopStep E size maxv)^[k] (0, List.replicate size 0) with hst
    have hlt : st.1 < size := by omega
    have hwrap : (st.1 + 1) % 65536 = st.1 + 1 := by
      apply Nat.mod_eq_of_lt; omega
    have hstep : expLoopStep E size maxv st
        = (st.1 + 1, st.2.set st.1 (expEntry E size maxv st.1)) := by
      rw [expLoopStep, if_pos hlt, hwrap]
    rw [hstep]
    refine ⟨by simp [h1], by simp [h2], ?_⟩
    intro r hr
    rcases Nat.lt_trichotomy r st.1 with hcase | hcase | hcase
    · have hrk : r < k := by omega
      have hrk1 : r < k + 1 := by omega
      have hne : st.1 ≠ r := by omega
      show (st.2.set st.1 (expEntry E size maxv st.1)).getD r 0 = _
      rw [List.getD_eq_getElem?_getD, List.getElem?_set_ne hne,
        ← List.getD_eq_getElem?_getD, h3 r hr]
      simp [hrk, hrk1]
    · have hrk : r = k := by omega
      have hsk : st.1 = r := by omega
      show (st.2.set st.1 (expEntry E size maxv st.1)).getD r 0 = _
      rw [List.getD_eq_getElem?_getD, hsk, List.getElem?_set_self
        (by rw [h2]; exact hr)]
      simp [hrk, hsk]
    · have h1' : ¬ r < k := by omega
      have h2' : ¬ r < k + 1 := by omega
      have hne : st.1 ≠ r := by omega
      show (st.2.set st.1 (expEntry E size maxv st.1)).getD r 0 = _
      rw [List.getD_eq_getElem?_getD, List.getElem?_set_ne hne,
        ← List.getD_eq_getElem?_getD, h3 r hr]
      simp [h1', h2']

/-! ## Corpus partitioning

`word2vec.cpp` lines 66–75: one contiguous document range per worker,
with an early `break` once the range reaches the last document. -/

/-- The `from`/`to` pair computed for loop index `i`
(`from = per * i`, `to = min(per * (i + 1) - 1, n - 1)`,
`word2vec.cpp` lines 69–70). -/
def blockAt (per n i : Nat) : Nat × Nat :=
  (per * i, min (per * (i + 1) - 1) (n - 1))

/-- The thread-creation loop (`word2vec.cpp` lines 68–75): at most `fuel`
trips starting at loop index `i`; each trip records the `i`-th range and
the loop stops early when the range reaches the last document
(`if (n - 1 == to) break`). -/
def rangesLoop (per n : Nat) : Nat → Nat → List (Nat × Nat)
  | 0, _ => []
  | fuel + 1, i =>
    blockAt per n i ::
      (if n - 1 = (blockAt per n i).2 then [] else rangesLoop per n fuel (i + 1))

/-- `⌊log2 n⌋` (0 for `n ≤ 1`), by structural recursion on a fuel bound
so that it evaluates inside the kernel. -/
def log2Aux : Nat → Nat → Nat
  | 0, _ => 0
  | fuel + 1, n => if n ≤ 1 then 0 else log2Aux fuel (n / 2) + 1

/-- `⌊log2 n⌋` for `n ≥ 1` (`n` halvings are always enough fuel). -/
def natLog2 (n : Nat) : Nat := log2Aux n n

/-- `⌊log2 (p/q)⌋` for `p, q ≥ 1`.  With `Lp = ⌊log2 p⌋` and
`Lq = ⌊log2 q⌋`, the ratio lies strictly between `2^(Lp−Lq−1)` and
`2^(Lp−Lq+1)`, so the floor is `Lp − Lq` or `Lp − Lq − 1`, decided by one
integer comparison. -/
def ratLog2Floor (p q : Nat) : Int :=
  let j : Int := (natLog2 p : Int) - (natLog2 q : Int)
  if 0 ≤ j then
    if q * 2 ^ j.toNat ≤ p then j else j - 1
  else
    if q ≤ p * 2 ^ (-j).toNat then j else j - 1

/-- Round the nonnegative ratio `a / b` to the nearest integer, ties to
even (the IEEE-754 default rounding of the significand). -/
def roundHalfEven (a b : Nat) : Nat :=
  let d := a / b
  let r := a % b
  if 2 * r < b then d
  else if b < 2 * r then d + 1
  else if d % 2 = 0 then d else d + 1

/-- Round the nonnegative rational `p / q` to the nearest IEEE-754
single-precision value: scale into the binade `[2^23, 2^24)`, round the
24-bit significand to nearest, ties to even, and scale back.  The result
is returned as a numerator/denominator pair whose denominator is a power
of two; the pair is not reduced to lowest terms (the represented value is
what matters, and every step below is value-level).  The exponent is
unbounded — the values arising here (document and worker counts and
their ratio) are far from single-precision overflow and underflow. -/
def fl32Pair (p q : Nat) : Nat × Nat :=
  if p = 0 ∨ q = 0 then (0, 1)
  else
    let e : Int := ratLog2Floor p q - 23
    if 0 ≤ e then
      (roundHalfEven p (q * 2 ^ e.toNat) * 2 ^ e.toNat, 1)
    else
      (roundHalfEven (p * 2 ^ (-e).toNat) q, 2 ^ (-e).toNat)

/-- Documents per worker as the program computes it:
`ceil((float)n / (float)threads)` (`word2vec.cpp` line 67) — both counts
converted to single precision, their exact quotient rounded once to
single precision (IEEE division is correctly rounded), the ceiling taken
exactly and converted back to an integer. -/
def perSizeFloat (n w : Nat) : Nat :=
  let a := fl32Pair n 1
  let b := fl32Pair w 1
  let c := fl32Pair (a.1 * b.2) (a.2 * b.1)
  (c.1 + c.2 - 1) / c.2

/-- The exact natural-number ceiling `⌈n / w⌉` that the specification
prescribes for the range size.  `perSizeFloat` coincides with it
whenever the single-precision computation is exact, but not in general:
see the counterexample at `n = 2^24 + 1`, `w = 2` below. -/
def perSize (n w : Nat) : Nat := (n + w - 1) / w

/-- The ranges of the worker threads created by `word2vec_t::train`
for `n` documents and `threads = w`. -/
def makeRanges (n w : Nat) : List (Nat × Nat) :=
  rangesLoop (perSizeFloat n w) n w 0

/-- Closed form of the creation loop: starting at index `i` with enough
fuel, it emits exactly the blocks `i, i+1, ...` up to the one containing
document `n - 1`. -/
theorem rangesLoop_closed (per n : Nat) (hper : 1 ≤ per) :
    ∀ fuel i, per * i < n → n ≤ per * i + per * fuel →
      rangesLoop per n fuel i =
        (List.range ((n - per * i + per - 1) / per)).map
          (fun j => blockAt per n (i + j)) := by
  intro fuel
  induction fuel with
  | zero =>
    intro i hi hf
    exfalso
    simp only [Nat.mul_zero] at hf
    omega
  | succ fuel ih =>
    intro i hi hf
    have hmul : per * (i + 1) = per * i + per := by ring
    have hto : (blockAt per n i).2 = min (per * (i + 1) - 1) (n - 1) := rfl
    by_cases hlast : n - 1 = (blockAt per n i).2
    · have hlast' := hlast
      rw [hto] at hlast'
      have hub : n ≤ per * i + per := by omega
      have hm : (n - per * i + per - 1) / per = 1 := by
        have he : n - per * i + per - 1 = (n - per * i - 1) + per := by omega
        rw [he, Nat.add_div_right _ (by omega), Nat.div_eq_of_lt (by omega)]
      rw [rangesLoop, if_pos hlast, hm]
      rfl
    · have hlast' := hlast
      rw [hto] at hlast'
      have hi' : per * (i + 1) < n := by omega
      have hf' : n ≤ per * (i + 1) + per * fuel := by
        have hmul2 : per * (fuel + 1) = per * fuel + per := by ring
        omega
      have hrec := ih (i + 1) hi' hf'
      have hm : (n - per * i + per - 1) / per
          = (n - per * (i + 1) + per - 1) / per + 1 := by
        have he1 : n - per * i + per - 1 = (n - per * (i + 1) + per - 1) + per := by
          omega
        rw [he1, Nat.add_div_right _ (by omega)]
      rw [rangesLoop, if_neg hlast, hrec, hm, List.range_succ_eq_map]
      simp only [List.map_cons, List.map_map]
      congr 1
      apply List.map_congr_left
      intro j _
      simp only [Function.comp_apply]
      exact congrArg (blockAt per n) (by omega)

/-! ## Learning-rate schedule -/

/-- Modelled from the spec: the shared learning rate recomputed after each
processed word (`trainThread.cpp`, which updates the shared
`data_t::alpha` declared at `trainThread.hpp` lines 48–49, is not part of
the excerpt).  Per §4.4:
`alpha_initial * max(1 − processedWords/(iterations*totalTrainWords+1), minFraction)`. -/
def alphaOf (s : Settings) (c : Corpus) (processed : Nat) : ℚ :=
  s.alpha * max (1 - (processed : ℚ) / ((s.iterations * c.trainWords : Nat) + 1 : ℚ))
    s.minFraction

/-! ## The worker (`trainThread_t`)

`trainThread.cpp` is not part of the excerpt; only the declarations in
`trainThread.hpp` are.  The worker below is modelled from the spec
(§4.4–§4.6): it is a pure function of the settings, the corpus, the
shared tables and its assigned range, it updates matrix entries in place
(`List.set`) and never resizes anything (§3), and all of its random
draws derive from the configured seed (§8's fixed-seed determinism
property); the `std::random_device` member declared at
`trainThread.hpp` line 59 contributes nothing in this model. -/

/-- Modelled from the spec: deterministic stand-in for the worker's
`mt19937_64` stream (a fixed function of the seed, here a plain linear
congruential step). -/
def workerRand (seed n : Nat) : Nat :=
  (1103515245 * (seed + n) + 12345) % 2147483648

/-- Row `row` of a flat `row-major` matrix with `dim` columns
(§3: rows addressed by `wordId * dimensionality + offset`). -/
def getRow (dim : Nat) (m : List ℚ) (row : Nat) : List ℚ :=
  (m.drop (row * dim)).take dim

/-- Dot product of a vector with matrix row `row`. -/
def rowDot (dim : Nat) (v m : List ℚ) (row : Nat) : ℚ :=
  ((List.range dim).map (fun j => v.getD j 0 * m.getD (row * dim + j) 0)).sum

/-- `m[row*dim + j] += a * v[j]` for `j < dim` — the in-place row update
primitive shared by §4.5 and §4.6.  Implemented with `List.set`, so the
matrix is never resized. -/
def rowAxpy (dim : Nat) (a : ℚ) (v m : List ℚ) (row : Nat) : List ℚ :=
  (List.range dim).foldl
    (fun acc j => acc.set (row * dim + j) (acc.getD (row * dim + j) 0 + a * v.getD j 0))
    m

/-- Modelled from the spec: sigmoid of `x` read from the shared lookup
table over the clamped input range `[-expValueMax, expValueMax]`
(§4.5/§4.6; the worker's table-indexing code is in the absent
`trainThread.cpp`). -/
def sigmoidAt (size : Nat) (maxv : ℚ) (tbl : List ℚ) (x : ℚ) : ℚ :=
  if x ≤ -maxv then 0
  else if maxv ≤ x then 1
  else tbl.getD ((x / maxv + 1) * (size : ℚ) / 2).floor.toNat 0

/-- Modelled from the spec: the per-pair update primitive of §4.5/§4.6 at
the label word's output row (label 1; Huffman path walk and
negative-sample draws, which live in the absent `trainThread.cpp`, are
elided — they repeat the same primitive at other rows).  The hidden
vector `hidden` is the input to the approximation step; the result is the
updated output matrix together with the accumulated hidden-layer
gradient. -/
def pairUpdate (s : Settings) (c : Corpus) (tbl : List ℚ) (processed : Nat)
    (label : Nat) (hidden : List ℚ) (bp : List ℚ) : List ℚ × List ℚ :=
  let dim := s.size
  let f := sigmoidAt s.expTableSize s.expValueMax tbl (rowDot dim hidden bp label)
  let g := alphaOf s c processed * (1 - f)
  (rowAxpy dim g hidden bp label, (getRow dim bp label).map (fun y => g * y))

/-- Modelled from the spec (§4.4 step 3, CBOW): average the context
words' input rows, run the approximation step on the average with the
target as label, distribute the hidden-layer gradient back to every
context row. -/
def cbowStep (s : Settings) (c : Corpus) (tbl : List ℚ) (processed : Nat)
    (sent : List Nat) (p : Nat) (ctxs : List Nat) (pj bp : List ℚ) :
    List ℚ × List ℚ :=
  let dim := s.size
  let total := ctxs.foldl
    (fun v q => (List.range dim).map
      (fun j => v.getD j 0 + (getRow dim pj (sent.getD q 0)).getD j 0))
    (List.replicate dim (0 : ℚ))
  let hidden := total.map (fun x => x / (ctxs.length : ℚ))
  let res := pairUpdate s c tbl processed (sent.getD p 0) hidden bp
  (ctxs.foldl (fun m q => rowAxpy dim 1 res.2 m (sent.getD q 0)) pj, res.1)

/-- Modelled from the spec (§4.4 step 3, Skip-Gram): for each context
word, run the approximation step with the target word's input row as
input and the context word as label, then apply the gradient to the
target word's input row. -/
def skipGramStep (s : Settings) (c : Corpus) (tbl : List ℚ) (processed : Nat)
    (sent : List Nat) (p : Nat) (ctxs : List Nat) (pj bp : List ℚ) :
    List ℚ × List ℚ :=
  let dim := s.size
  ctxs.foldl
    (fun (m : List ℚ × List ℚ) q =>
      let res := pairUpdate s c tbl processed (sent.getD q 0)
        (getRow dim m.1 (sent.getD p 0)) m.2
      (rowAxpy dim 1 res.2 m.1 (sent.getD p 0), res.1))
    (pj, bp)

/-- Context positions of `p` within a random effective radius `b ≤ window`
(§4.4 step 2). -/
def contextsOf (len p b : Nat) : List Nat :=
  (List.range len).filter (fun q => q ≠ p ∧ p ≤ q + b ∧ q ≤ p + b)

/-- Modelled from the spec (§4.4): process one target position of the
current sentence — draw the effective window radius from the seeded
generator, run the objective's update, then advance the shared word
counter (the learning rate used by the next word is
`alphaOf s c processed`, recomputed from the new counter). -/
def positionStep (s : Settings) (c : Corpus) (tbl : List ℚ) (sent : List Nat)
    (acc : (List ℚ × List ℚ) × Nat) (p : Nat) : (List ℚ × List ℚ) × Nat :=
  let b := workerRand s.random acc.2 % (s.window + 1)
  let ctxs := contextsOf sent.length p b
  let res :=
    if s.withSG then skipGramStep s c tbl acc.2 sent p ctxs acc.1.1 acc.1.2
    else cbowStep s c tbl acc.2 sent p ctxs acc.1.1 acc.1.2
  (res, acc.2 + 1)

/-- Modelled from the spec (§4.4 step 1): one pass over one document.
The down-sampling Bernoulli draw also derives from the seeded generator;
its keep/skip decision is modelled as keep-all (its skip only shortens
the sentence and no settled property depends on it). -/
def docStep (s : Settings) (c : Corpus) (tbl : List ℚ)
    (acc : (List ℚ × List ℚ) × Nat) (sent : List Nat) :
    (List ℚ × List ℚ) × Nat :=
  (List.range sent.length).foldl (positionStep s c tbl sent) acc

/-- The documents of the worker's assigned contiguous range
`[range.1, range.2]`. -/
def docsInRange (texts : List (List Nat)) (range : Nat × Nat) :
    List (List Nat) :=
  (texts.drop range.1).take (range.2 + 1 - range.1)

/-- Modelled from the spec: a worker's whole run — `iterations` passes
over its assigned document range, threading the shared matrices and the
shared word counter. -/
def workerRun (s : Settings) (c : Corpus) (tbl : List ℚ) (range : Nat × Nat)
    (acc : (List ℚ × List ℚ) × Nat) : (List ℚ × List ℚ) × Nat :=
  (List.range s.iterations).foldl
    (fun a _ => (docsInRange c.texts range).foldl (docStep s c tbl) a) acc

/-- Modelled from the spec: the per-worker negative-sampling
distribution (`nsDistribution.hpp`/`trainThread.cpp` are absent).  Per
§2/§4.2 it is built from the per-word frequencies; its table contents
are elided — only its construction and per-thread ownership matter to
the settled properties. -/
structure NsDist where
  freq : List Nat
deriving DecidableEq, Repr

/-- A `trainThread_t` as constructed by the orchestrator: its assigned
range (`trainThread.hpp` line 54) and its privately owned
`m_nsDistribution` (`trainThread.hpp` line 64, a `unique_ptr` member of
each thread).  Modelled from the spec: the constructor (absent
`trainThread.cpp`) builds the distribution exactly when negative
sampling is selected, i.e. when `withHS` is unset. -/
structure TrainThread where
  range : Nat × Nat
  nsDistribution : Option NsDist
deriving DecidableEq, Repr

/-- Construction of one worker (`new trainThread_t(std::make_pair(from, to), data)`,
`word2vec.cpp` line 72). -/
def mkThread (s : Settings) (c : Corpus) (range : Nat × Nat) : TrainThread :=
  { range := range
    nsDistribution := if s.withHS then none else some { freq := c.frequency } }

/-- Sequential execution of the created workers over the shared matrices
and shared word counter.  Concurrency note (§5): real workers run
Hogwild-style in parallel; the model composes them in creation order,
which is exact for a single worker — the only case any settled property
speaks about. -/
def runThreads (s : Settings) (c : Corpus) (tbl : List ℚ)
    (threads : List TrainThread) (pj bp : List ℚ) : List ℚ × List ℚ :=
  ((threads.foldl (fun acc th => workerRun s c tbl th.range acc) ((pj, bp), 0)).1)

/-! ## The orchestrator (`word2vec_t::train`, `word2vec.cpp` lines 13–121) -/

/-- The zero-initialized back-propagation/output matrix
(`new std::vector<float>(matrixSize, 0.0f)`, line 42), where
`matrixSize = m_vectorSize * m_vocaburarySize` (line 22). -/
def initBpWeights (s : Settings) (c : Corpus) : List ℚ :=
  List.replicate (s.size * c.words.length) 0

/-- The projection-layer/input matrix (lines 43–47): `matrixSize` entries
overwritten by `std::generate` with successive draws of
`uniform_real_distribution<float>(-0.005f, 0.005f)` applied to
`std::mt19937_64(settings->random)` — the draw stream is `env.rng
settings.random`. -/
def initPjLayer (env : Env) (s : Settings) (c : Corpus) : List ℚ :=
  (List.range (s.size * c.words.length)).map (env.rng s.random)

/-- The conditional Huffman tree (lines 57–59): built from the corpus
frequencies exactly when `settings->withHS` holds; the tree itself is
represented by its construction argument (`huffmanTree.hpp` is not part
of the excerpt). -/
def huffmanTreeOf (s : Settings) (c : Corpus) : Option (List Nat) :=
  if s.withHS then some c.frequency else none

/-- The shared data assembled inside the `try` block
(`trainThread_t::data_t`, `trainThread.hpp` lines 40–51) together with
the created workers, as it stands after the workers have joined. -/
structure SetupData where
  pjLayerValues : List ℚ
  bpWeights : List ℚ
  expTable : List ℚ
  huffmanTree : Option (List Nat)
  threads : List TrainThread
deriving DecidableEq, Repr

/-- The `try` block of `word2vec_t::train`.  An `.error` is a thrown
exception, paired with the worker threads already created when it was
raised (none for the three validation throws, lines 27–34).  `entropy`
models the `std::random_device` draws available to the process during
this run; `oracle` injects any other runtime failure (§7's
UnexpectedError) after setup. -/
def trainBody (env : Env) (entropy : Nat → Nat) (oracle : Option Exc)
    (s : Settings) (c : Corpus) :
    Except (Exc × List TrainThread) SetupData :=
  if s.size = 0 then .error (.std "vectorSize is zero", [])
  else if c.words.length = 0 then .error (.std "vocaburarySize is zero", [])
  else if c.trainWords = 0 then .error (.std "trainWords is zero", [])
  else
    let bp := initBpWeights s c
    let pj := initPjLayer env s c
    let tbl := buildExpTable env.E s.expTableSize s.expValueMax
    let huffman := huffmanTreeOf s c
    let threads := (makeRanges c.texts.length s.threads).map (mkThread s c)
    match oracle with
    | some e => .error (e, threads)
    | none =>
      let res := runThreads s c tbl threads pj bp
      .ok { pjLayerValues := res.1, bpWeights := res.2, expTable := tbl
            huffmanTree := huffman, threads := threads }

/-- What one call of `word2vec_t::train` did: its boolean result, the
object state after the call, the shared data on the success path, and
every worker thread created during the call. -/
structure TrainTrace where
  success : Bool
  state : W2VState
  data : Option SetupData
  threadsCreated : List TrainThread
deriving DecidableEq, Repr

/-- `word2vec_t::train` (lines 13–121): store `m_vectorSize` and
`m_vocaburarySize` (lines 20–21, before validation), run the `try`
block; on success publish the matrices (lines 110–111) and return
`true`; on any exception store the message per the two `catch` clauses
(lines 114–118) and return `false`. -/
def trainModel (env : Env) (entropy : Nat → Nat) (oracle : Option Exc)
    (s : Settings) (c : Corpus) (st : W2VState) : TrainTrace :=
  let st1 := { st with m_vectorSize := s.size, m_vocaburarySize := c.words.length }
  match trainBody env entropy oracle s c with
  | .ok d =>
      { success := true
        state := { st1 with m_pjLayerValues := d.pjLayerValues
                            m_bpWeights := d.bpWeights }
        data := some d
        threadsCreated := d.threads }
  | .error (e, threads) =>
      { success := false
        state := { st1 with m_errMsg := excMessage e }
        data := none
        threadsCreated := threads }

/-! ## Helper lemmas -/

/-- A fold preserves any invariant its step preserves. -/
theorem foldl_invariant {α β : Type} (P : α → Prop) (f : α → β → α)
    (l : List β) (a : α) (h : ∀ x b, P x → P (f x b)) (ha : P a) :
    P (l.foldl f a) := by
  induction l generalizing a with
  | nil => exact ha
  | cons b l ih => exact ih (f a b) (h a b ha)

/-- The row update primitive never changes the matrix size. -/
theorem rowAxpy_length (dim : Nat) (a : ℚ) (v m : List ℚ) (row : Nat) :
    (rowAxpy dim a v m row).length = m.length := by
  unfold rowAxpy
  exact foldl_invariant (fun x : List ℚ => x.length = m.length) _ _ _
    (fun x b hx => by simpa using hx) rfl

/-- The per-pair update never changes the output-matrix size. -/
theorem pairUpdate_fst_length (s : Settings) (c : Corpus) (tbl : List ℚ)
    (processed label : Nat) (hidden bp : List ℚ) :
    (pairUpdate s c tbl processed label hidden bp).1.length = bp.length := by
  unfold pairUpdate
  exact rowAxpy_length _ _ _ _ _

/-- One CBOW step never changes either matrix size. -/
theorem cbowStep_lengths (s : Settings) (c : Corpus) (tbl : List ℚ)
    (processed : Nat) (sent : List Nat) (p : Nat) (ctxs : List Nat)
    (pj bp : List ℚ) :
    (cbowStep s c tbl processed sent p ctxs pj bp).1.length = pj.length ∧
    (cbowStep s c tbl processed sent p ctxs pj bp).2.length = bp.length := by
  unfold cbowStep
  dsimp only
  constructor
  · exact foldl_invariant (fun x : List ℚ => x.length = pj.length) _ _ _
      (fun x b hx => by simp only [rowAxpy_length]; exact hx) rfl
  · exact pairUpdate_fst_length _ _ _ _ _ _ _

/-- One Skip-Gram step never changes either matrix size. -/
theorem skipGramStep_lengths (s : Settings) (c : Corpus) (tbl : List ℚ)
    (processed : Nat) (sent : List Nat) (p : Nat) (ctxs : List Nat)
    (pj bp : List ℚ) :
    (skipGramStep s c tbl processed sent p ctxs pj bp).1.length = pj.length ∧
    (skipGramStep s c tbl processed sent p ctxs pj bp).2.length = bp.length := by
  unfold skipGramStep
  dsimp only
  exact foldl_invariant
    (fun x : List ℚ × List ℚ => x.1.length = pj.length ∧ x.2.length = bp.length)
    _ _ _
    (fun x b hx =>
      ⟨by simp only [rowAxpy_length]; exact hx.1,
       by simp only [pairUpdate_fst_length]; exact hx.2⟩)
    ⟨rfl, rfl⟩

/-- The full shared state `((pj, bp), counter)` keeps both matrix sizes
through one target position. -/
theorem positionStep_lengths (s : Settings) (c : Corpus) (tbl : List ℚ)
    (sent : List Nat) (acc : (List ℚ × List ℚ) × Nat) (p : Nat) :
    (positionStep s c tbl sent acc p).1.1.length = acc.1.1.length ∧
    (positionStep s c tbl sent acc p).1.2.length = acc.1.2.length := by
  unfold positionStep
  by_cases h : s.withSG
  · simp only [h, if_true]
    exact skipGramStep_lengths _ _ _ _ _ _ _ _ _
  · simp only [h, if_false]
    exact cbowStep_lengths _ _ _ _ _ _ _ _ _

/-- Matrix sizes are preserved across a worker's whole run. -/
theorem workerRun_lengths (s : Settings) (c : Corpus) (tbl : List ℚ)
    (range : Nat × Nat) (acc : (List ℚ × List ℚ) × Nat) :
    (workerRun s c tbl range acc).1.1.length = acc.1.1.length ∧
    (workerRun s c tbl range acc).1.2.length = acc.1.2.length := by
  unfold workerRun
  apply foldl_invariant
    (fun x : (List ℚ × List ℚ) × Nat =>
      x.1.1.length = acc.1.1.length ∧ x.1.2.length = acc.1.2.length)
  · intro x b hx
    apply foldl_invariant
      (fun y : (List ℚ × List ℚ) × Nat =>
        y.1.1.length = acc.1.1.length ∧ y.1.2.length = acc.1.2.length)
    · intro y sent hy
      apply foldl_invariant
        (fun z : (List ℚ × List ℚ) × Nat =>
          z.1.1.length = acc.1.1.length ∧ z.1.2.length = acc.1.2.length)
      · intro z q hz
        obtain ⟨hz1, hz2⟩ := hz
        obtain ⟨e1, e2⟩ := positionStep_lengths s c tbl sent z q
        exact ⟨e1.trans hz1, e2.trans hz2⟩
      · exact hy
    · exact hx
  · exact ⟨rfl, rfl⟩

/-- Matrix sizes are preserved across every worker. -/
theorem runThreads_lengths (s : Settings) (c : Corpus) (tbl : List ℚ)
    (threads : List TrainThread) (pj bp : List ℚ) :
    (runThreads s c tbl threads pj bp).1.length = pj.length ∧
    (runThreads s c tbl threads pj bp).2.length = bp.length := by
  unfold runThreads
  have := foldl_invariant
    (fun x : (List ℚ × List ℚ) × Nat =>
      x.1.1.length = pj.length ∧ x.1.2.length = bp.length)
    (fun acc th => workerRun s c tbl th.range acc)
    threads ((pj, bp), 0)
    (by
      intro x th hx
      obtain ⟨e1, e2⟩ := workerRun_lengths s c tbl th.range x
      exact ⟨e1.trans hx.1, e2.trans hx.2⟩)
    ⟨rfl, rfl⟩
  exact this

/-- What a successful `try` block produced, in terms of the constructed
ingredients. -/
theorem trainBody_ok_fields (env : Env) (entropy : Nat → Nat)
    (oracle : Option Exc) (s : Settings) (c : Corpus) (d : SetupData)
    (htb : trainBody env entropy oracle s c = .ok d) :
    d.expTable = buildExpTable env.E s.expTableSize s.expValueMax ∧
    d.huffmanTree = huffmanTreeOf s c ∧
    d.threads = (makeRanges c.texts.length s.threads).map (mkThread s c) ∧
    d.pjLayerValues
      = (runThreads s c (buildExpTable env.E s.expTableSize s.expValueMax)
          ((makeRanges c.texts.length s.threads).map (mkThread s c))
          (initPjLayer env s c) (initBpWeights s c)).1 ∧
    d.bpWeights
      = (runThreads s c (buildExpTable env.E s.expTableSize s.expValueMax)
          ((makeRanges c.texts.length s.threads).map (mkThread s c))
          (initPjLayer env s c) (initBpWeights s c)).2 := by
  unfold trainBody at htb
  by_cases h1 : s.size = 0
  · simp [h1] at htb
  · by_cases h2 : c.words.length = 0
    · simp [h1, h2] at htb
    · by_cases h3 : c.trainWords = 0
      · simp [h1, h2, h3] at htb
      · simp only [h1, h2, h3, if_false] at htb
        cases oracle with
        | some e => simp at htb
        | none =>
          simp only [Except.ok.injEq] at htb
          subst htb
          exact ⟨rfl, rfl, rfl, rfl, rfl⟩

/-- The trace of a successful call in terms of the `try` block's result. -/
theorem trainModel_ok (env : Env) (entropy : Nat → Nat) (oracle : Option Exc)
    (s : Settings) (c : Corpus) (st : W2VState) (d : SetupData)
    (htb : trainBody env entropy oracle s c = .ok d) :
    trainModel env entropy oracle s c st =
      { success := true
        state := { m_vectorSize := s.size
                   m_vocaburarySize := c.words.length
                   m_pjLayerValues := d.pjLayerValues
                   m_bpWeights := d.bpWeights
                   m_errMsg := st.m_errMsg }
        data := some d
        threadsCreated := d.threads } := by
  unfold trainModel
  rw [htb]

/-- The trace of a failing call in terms of the thrown exception. -/
theorem trainModel_error (env : Env) (entropy : Nat → Nat)
    (oracle : Option Exc) (s : Settings) (c : Corpus) (st : W2VState)
    (e : Exc) (threads : List TrainThread)
    (htb : trainBody env entropy oracle s c = .error (e, threads)) :
    trainModel env entropy oracle s c st =
      { success := false
        state := { m_vectorSize := s.size
                   m_vocaburarySize := c.words.length
                   m_pjLayerValues := st.m_pjLayerValues
                   m_bpWeights := st.m_bpWeights
                   m_errMsg := excMessage e }
        data := none
        threadsCreated := threads } := by
  unfold trainModel
  rw [htb]

/-- `n ≤ ceil(n/b) * b`. -/
theorem ceilDiv_mul_ge (n b : Nat) (hb : 0 < b) : n ≤ (n + b - 1) / b * b := by
  have hd := Nat.div_add_mod (n + b - 1) b
  have hm : (n + b - 1) % b < b := Nat.mod_lt _ hb
  have hc : (n + b - 1) / b * b = b * ((n + b - 1) / b) := Nat.mul_comm _ _
  omega

/-- `ceil(n/b)` is the least multiple bound: `n ≤ b*m → ceil(n/b) ≤ m`. -/
theorem ceilDiv_le_of_le (n b m : Nat) (hb : 0 < b) (h : n ≤ b * m) :
    (n + b - 1) / b ≤ m := by
  have h1 : n + b - 1 ≤ b * m + b - 1 := by omega
  have h2 : (n + b - 1) / b ≤ (b * m + b - 1) / b := Nat.div_le_div_right h1
  have h3 : (b * m + b - 1) / b = m := by
    have he : b * m + b - 1 = (b - 1) + m * b := by
      have := Nat.mul_comm b m
      omega
    rw [he, Nat.add_mul_div_right _ _ hb, Nat.div_eq_of_lt (by omega)]
    exact Nat.zero_add m
  omega

/-- The per-worker range size is at least 1 for a non-empty corpus. -/
theorem perSize_pos (n w : Nat) (hn : 0 < n) (hw : 0 < w) :
    1 ≤ perSize n w := by
  unfold perSize
  rw [Nat.le_div_iff_mul_le hw]
  omega

/-- Closed form of `makeRanges` for a non-empty corpus: the blocks
`0, 1, ...` up to the one containing the last document. -/
theorem makeRanges_eq (n w : Nat) (hn : 0 < n) (hw : 0 < w)
    (hex : perSizeFloat n w = perSize n w) :
    makeRanges n w
      = (List.range ((n + perSize n w - 1) / perSize n w)).map
          (blockAt (perSize n w) n) := by
  have hper : 1 ≤ perSize n w := perSize_pos n w hn hw
  have hcov : n ≤ perSize n w * 0 + perSize n w * w := by
    have h1 := ceilDiv_mul_ge n w hw
    have h2 : (n + w - 1) / w * w = w * ((n + w - 1) / w) := Nat.mul_comm _ _
    have h3 : perSize n w * w = w * ((n + w - 1) / w) := by
      unfold perSize
      exact Nat.mul_comm _ _
    omega
  have h0 : perSize n w * 0 < n := by
    have : perSize n w * 0 = 0 := Nat.mul_zero _
    omega
  have hcl := rangesLoop_closed (perSize n w) n hper w 0 h0 hcov
  unfold makeRanges
  rw [hex, hcl]
  simp

/-- Every entry of `makeRanges` is the corresponding block. -/
theorem makeRanges_getD (n w k : Nat) (hn : 0 < n) (hw : 0 < w)
    (hex : perSizeFloat n w = perSize n w)
    (hk : k < (n + perSize n w - 1) / perSize n w) :
    (makeRanges n w).getD k (0, 0) = blockAt (perSize n w) n k := by
  rw [makeRanges_eq n w hn hw hex]
  simp [List.getD_eq_getElem?_getD, List.getElem?_map, List.getElem?_range hk]

/-- **C3 counterexample.** At `n = 2^24 + 1` documents and `w = 2`
workers, converting `n` to single precision rounds it to `2^24`
(ties-to-even), so the program computes `per = 8388608` instead of
`⌈n/w⌉ = 8388609`; the two created ranges each have size `8388608`, not
`⌈n/w⌉`, and the last document (index `2^24`) is covered by no range. -/
theorem makeRanges_float_rounding :
    perSizeFloat (2 ^ 24 + 1) 2 = 8388608
    ∧ perSize (2 ^ 24 + 1) 2 = 8388609
    ∧ makeRanges (2 ^ 24 + 1) 2 = [(0, 8388607), (8388608, 16777215)]
    ∧ (∀ r ∈ makeRanges (2 ^ 24 + 1) 2, ¬ (r.1 ≤ 2 ^ 24 ∧ 2 ^ 24 ≤ r.2))
    ∧ ((makeRanges (2 ^ 24 + 1) 2).getD 0 (0, 0)).2 + 1
        - ((makeRanges (2 ^ 24 + 1) 2).getD 0 (0, 0)).1
      ≠ perSize (2 ^ 24 + 1) 2 := by decide

/-- `makeRanges` creates `ceil(n / per)` workers. -/
theorem makeRanges_length (n w : Nat) (hn : 0 < n) (hw : 0 < w)
    (hex : perSizeFloat n w = perSize n w) :
    (makeRanges n w).length = (n + perSize n w - 1) / perSize n w := by
  rw [makeRanges_eq n w hn hw hex]
  simp

/-! ## Claim theorems -/

/-- **C3 (amended).** For every document count `n > 0` and worker count
`w > 0` at which the program's single-precision computation
`ceil((float)n / (float)w)` equals the exact ceiling `ceil(n / w)`, the
orchestrator partitions the documents into contiguous, non-overlapping
index ranges each of size `ceil(n / w)` (the last possibly smaller),
creates one worker per range, creates fewer than `w` workers when `n` is
smaller than needed to fill `w` ranges, and the created ranges together
cover exactly the document indices `0` through `n − 1`.  (Without the
exactness hypothesis the property fails: see the counterexample.) -/
theorem makeRanges_partition (n w : Nat) (hn : 0 < n) (hw : 0 < w)
    (hex : perSizeFloat n w = perSize n w) :
    0 < (makeRanges n w).length
    ∧ (makeRanges n w).length ≤ w
    ∧ (n ≤ perSize n w * (w - 1) → (makeRanges n w).length < w)
    ∧ (∀ k, k < (makeRanges n w).length →
        ((makeRanges n w).getD k (0, 0)).1 = perSize n w * k
        ∧ ((makeRanges n w).getD k (0, 0)).2
            = min (perSize n w * (k + 1) - 1) (n - 1))
    ∧ (∀ k, k + 1 < (makeRanges n w).length →
        ((makeRanges n w).getD k (0, 0)).2 + 1
            - ((makeRanges n w).getD k (0, 0)).1 = perSize n w)
    ∧ (∀ k, k < (makeRanges n w).length →
        ((makeRanges n w).getD k (0, 0)).2 + 1
            - ((makeRanges n w).getD k (0, 0)).1 ≤ perSize n w)
    ∧ (∀ k, k + 1 < (makeRanges n w).length →
        ((makeRanges n w).getD (k + 1) (0, 0)).1
          = ((makeRanges n w).getD k (0, 0)).2 + 1)
    ∧ (∀ j k, j < k → k < (makeRanges n w).length →
        ((makeRanges n w).getD j (0, 0)).2 < ((makeRanges n w).getD k (0, 0)).1)
    ∧ ((makeRanges n w).getD 0 (0, 0)).1 = 0
    ∧ ((makeRanges n w).getD ((makeRanges n w).length - 1) (0, 0)).2 = n - 1
    ∧ (∀ d, d < n → ∃ k, k < (makeRanges n w).length
        ∧ ((makeRanges n w).getD k (0, 0)).1 ≤ d
        ∧ d ≤ ((makeRanges n w).getD k (0, 0)).2) := by
  have hper : 1 ≤ perSize n w := perSize_pos n w hn hw
  obtain ⟨m, hm⟩ : ∃ m, (n + perSize n w - 1) / perSize n w = m := ⟨_, rfl⟩
  obtain ⟨q, hq⟩ : ∃ q, (n - 1) / perSize n w = q := ⟨_, rfl⟩
  have hlen : (makeRanges n w).length = m := by
    rw [makeRanges_length n w hn hw hex, hm]
  have hget : ∀ k, k < m →
      (makeRanges n w).getD k (0, 0) = blockAt (perSize n w) n k := by
    intro k hk
    exact makeRanges_getD n w k hn hw hex (by rw [hm]; exact hk)
  have hmul : n ≤ m * perSize n w := by
    have h := ceilDiv_mul_ge n (perSize n w) hper
    rw [hm] at h
    exact h
  have hmc : m * perSize n w = perSize n w * m := Nat.mul_comm _ _
  have hm' : m = q + 1 := by
    rw [← hm, ← hq]
    have he : n + perSize n w - 1 = (n - 1) + 1 * perSize n w := by omega
    rw [he, Nat.add_mul_div_right _ _ hper]
  have hql : perSize n w * q ≤ n - 1 := by
    have h1 : (n - 1) / perSize n w * perSize n w ≤ n - 1 :=
      Nat.div_mul_le_self _ _
    rw [hq] at h1
    have h2 : q * perSize n w = perSize n w * q := Nat.mul_comm _ _
    omega
  have hm1 : 1 ≤ m := by omega
  have hlast : perSize n w * (m - 1) < n := by
    have h2 : m - 1 = q := by omega
    rw [h2]
    omega
  have hfull : ∀ k, k + 1 < m → perSize n w * (k + 1) < n := by
    intro k hk
    exact lt_of_le_of_lt
      (Nat.mul_le_mul (Nat.le_refl (perSize n w)) (by omega)) hlast
  have hpw : n ≤ perSize n w * w := by
    unfold perSize
    exact ceilDiv_mul_ge n w hw
  refine ⟨?_, ?_, ?_, ?_, ?_, ?_, ?_, ?_, ?_, ?_, ?_⟩
  · omega
  · rw [hlen, ← hm]
    exact ceilDiv_le_of_le n (perSize n w) w hper hpw
  · intro hsmall
    rw [hlen]
    have h := ceilDiv_le_of_le n (perSize n w) (w - 1) hper hsmall
    rw [hm] at h
    omega
  · intro k hk
    rw [hlen] at hk
    rw [hget k hk]
    exact ⟨rfl, rfl⟩
  · intro k hk
    rw [hlen] at hk
    rw [hget k (by omega)]
    simp only [blockAt]
    have h1 := hfull k hk
    have h2 : perSize n w * (k + 1) = perSize n w * k + perSize n w := by ring
    omega
  · intro k hk
    rw [hlen] at hk
    rw [hget k hk]
    simp only [blockAt]
    have h2 : perSize n w * (k + 1) = perSize n w * k + perSize n w := by ring
    omega
  · intro k hk
    rw [hlen] at hk
    rw [hget (k + 1) hk, hget k (by omega)]
    simp only [blockAt]
    have h1 := hfull k hk
    have h2 : perSize n w * (k + 1) = perSize n w * k + perSize n w := by ring
    omega
  · intro j k hjk hk
    rw [hlen] at hk
    rw [hget j (by omega), hget k (by omega)]
    simp only [blockAt]
    have h1 : perSize n w * (j + 1) ≤ perSize n w * k :=
      Nat.mul_le_mul (Nat.le_refl (perSize n w)) (by omega)
    have h2 : perSize n w * (j + 1) = perSize n w * j + perSize n w := by ring
    omega
  · rw [hget 0 (by omega)]
    simp [blockAt]
  · rw [hlen, hget (m - 1) (by omega)]
    simp only [blockAt]
    have he : m - 1 + 1 = m := by omega
    rw [he]
    omega
  · intro d hd
    obtain ⟨k0, hk0⟩ : ∃ k0, d / perSize n w = k0 := ⟨_, rfl⟩
    obtain ⟨r, hr0⟩ : ∃ r, d % perSize n w = r := ⟨_, rfl⟩
    have hdr : perSize n w * k0 + r = d := by
      have h := Nat.div_add_mod d (perSize n w)
      rw [hk0, hr0] at h
      exact h
    have hrlt : r < perSize n w := by
      rw [← hr0]
      exact Nat.mod_lt _ hper
    have hk0m : k0 < m := by
      by_contra hcon
      push_neg at hcon
      have h := Nat.mul_le_mul (Nat.le_refl (perSize n w)) hcon
      omega
    refine ⟨k0, ?_, ?_, ?_⟩
    · omega
    · rw [hget k0 hk0m]
      simp only [blockAt]
      omega
    · rw [hget k0 hk0m]
      simp only [blockAt]
      have h3 : perSize n w * (k0 + 1) = perSize n w * k0 + perSize n w := by ring
      omega

/-- **C1.** For every settings and corpus input, if the embedding
dimensionality is 0, the vocabulary size is 0, or the total trainable
word count is 0, then `word2vec_t::train` returns false, stores a
descriptive error message identifying a violated invariant (in
particular, the vocabulary-empty message when the vocabulary is empty
and the dimensionality check passed), and no worker thread is created
or launched. -/
theorem train_validation_failure (env : Env) (entropy : Nat → Nat)
    (oracle : Option Exc) (s : Settings) (c : Corpus) (st : W2VState)
    (h : s.size = 0 ∨ c.words.length = 0 ∨ c.trainWords = 0) :
    (trainModel env entropy oracle s c st).success = false
    ∧ (trainModel env entropy oracle s c st).threadsCreated = []
    ∧ (((trainModel env entropy oracle s c st).state.m_errMsg
          = "vectorSize is zero" ∧ s.size = 0)
      ∨ ((trainModel env entropy oracle s c st).state.m_errMsg
          = "vocaburarySize is zero" ∧ c.words.length = 0)
      ∨ ((trainModel env entropy oracle s c st).state.m_errMsg
          = "trainWords is zero" ∧ c.trainWords = 0))
    ∧ (c.words.length = 0 → s.size ≠ 0 →
        (trainModel env entropy oracle s c st).state.m_errMsg
          = "vocaburarySize is zero") := by
  by_cases h1 : s.size = 0
  · have htb : trainBody env entropy oracle s c
        = .error (.std "vectorSize is zero", []) := by
      unfold trainBody
      rw [if_pos h1]
    rw [trainModel_error env entropy oracle s c st _ _ htb]
    exact ⟨rfl, rfl, Or.inl ⟨rfl, h1⟩, fun _ h2 => absurd h1 h2⟩
  · by_cases h2 : c.words.length = 0
    · have htb : trainBody env entropy oracle s c
          = .error (.std "vocaburarySize is zero", []) := by
        unfold trainBody
        rw [if_neg h1, if_pos h2]
      rw [trainModel_error env entropy oracle s c st _ _ htb]
      exact ⟨rfl, rfl, Or.inr (Or.inl ⟨rfl, h2⟩), fun _ _ => rfl⟩
    · have h3 : c.trainWords = 0 := by tauto
      have htb : trainBody env entropy oracle s c
          = .error (.std "trainWords is zero", []) := by
        unfold trainBody
        rw [if_neg h1, if_neg h2, if_pos h3]
      rw [trainModel_error env entropy oracle s c st _ _ htb]
      exact ⟨rfl, rfl, Or.inr (Or.inr ⟨rfl, h3⟩), fun hv _ => absurd hv h2⟩

/-- **C2.** `word2vec_t::train` never propagates an exception: when the
`try` block produces a value it returns true; when the `try` block
raises any exception it returns false and stores the exception's
message — `what()` for a `std::exception`, `"unknown error"` for a
non-standard exception. -/
theorem train_no_escape (env : Env) (entropy : Nat → Nat)
    (oracle : Option Exc) (s : Settings) (c : Corpus) (st : W2VState) :
    (∀ d : SetupData, trainBody env entropy oracle s c = .ok d →
        (trainModel env entropy oracle s c st).success = true)
    ∧ (∀ (e : Exc) (threads : List TrainThread),
        trainBody env entropy oracle s c = .error (e, threads) →
        (trainModel env entropy oracle s c st).success = false
        ∧ (trainModel env entropy oracle s c st).state.m_errMsg = excMessage e)
    ∧ excMessage Exc.unknown = "unknown error" := by
  refine ⟨?_, ?_, rfl⟩
  · intro d hd
    rw [trainModel_ok env entropy oracle s c st d hd]
  · intro e threads he
    rw [trainModel_error env entropy oracle s c st e threads he]
    exact ⟨rfl, rfl⟩

/-- **C10.** Whenever `word2vec_t::train` returns false, the stored
matrix members `m_pjLayerValues` and `m_bpWeights` are unchanged, and
`m_vectorSize`/`m_vocaburarySize` hold the (rejected) inputs, having
been overwritten before validation. -/
theorem train_failure_frame (env : Env) (entropy : Nat → Nat)
    (oracle : Option Exc) (s : Settings) (c : Corpus) (st : W2VState)
    (h : (trainModel env entropy oracle s c st).success = false) :
    (trainModel env entropy oracle s c st).state.m_pjLayerValues
      = st.m_pjLayerValues
    ∧ (trainModel env entropy oracle s c st).state.m_bpWeights
      = st.m_bpWeights
    ∧ (trainModel env entropy oracle s c st).state.m_vectorSize = s.size
    ∧ (trainModel env entropy oracle s c st).state.m_vocaburarySize
      = c.words.length := by
  cases htb : trainBody env entropy oracle s c with
  | ok d =>
    rw [trainModel_ok env entropy oracle s c st d htb] at h
    exact absurd h (by simp)
  | error p =>
    rw [trainModel_error env entropy oracle s c st p.1 p.2 (by rw [htb])]
    exact ⟨rfl, rfl, rfl, rfl⟩

/-- **C9.** The loop that fills the sigmoid lookup table terminates for
every value of the configured `expTableSize`: the counter is a 16-bit
unsigned integer (so every configurable size is below `2^16`), and after
finitely many trips the `r < expTableSize` test fails. -/
theorem expLoop_terminates (E : ℚ → ℚ) (size : Nat) (maxv : ℚ)
    (hsize : size < 65536) :
    ∃ fuel : Nat,
      expLoopDone size
        ((expLoopStep E size maxv)^[fuel] (0, List.replicate size 0)) := by
  refine ⟨size, ?_⟩
  have h := (expLoop_invariant E size maxv hsize size (Nat.le_refl size)).1
  unfold expLoopDone
  omega

/-- **C6.** The sigmoid lookup table has exactly `expTableSize` entries;
for every index `r` in `[0, expTableSize)` its entry equals
`s / (s + 1)` with `s = exp((2·r/expTableSize − 1) · expValueMax)` —
the logistic function of the input clamped to
`[−expValueMax, +expValueMax]` — and the table handed to the workers on
a successful run is exactly the constructed one, unmodified. -/
theorem expTable_spec (env : Env) (s : Settings) (c : Corpus)
    (hsize : s.expTableSize < 65536) :
    (buildExpTable env.E s.expTableSize s.expValueMax).length = s.expTableSize
    ∧ (∀ r, r < s.expTableSize →
        (buildExpTable env.E s.expTableSize s.expValueMax).getD r 0
          = expEntry env.E s.expTableSize s.expValueMax r)
    ∧ (∀ (entropy : Nat → Nat) (oracle : Option Exc) (d : SetupData),
        trainBody env entropy oracle s c = .ok d →
        d.expTable = buildExpTable env.E s.expTableSize s.expValueMax) := by
  obtain ⟨h1, h2, h3⟩ :=
    expLoop_invariant env.E s.expTableSize s.expValueMax hsize s.expTableSize
      (Nat.le_refl _)
  refine ⟨h2, ?_, ?_⟩
  · intro r hr
    have := h3 r hr
    rw [buildExpTable, this, if_pos hr]
  · intro entropy oracle d htb
    exact (trainBody_ok_fields env entropy oracle s c d htb).1

/-- **C5.** With worker count 1, a fixed random seed in the settings and
a fixed corpus, two runs of `word2vec_t::train` with identical settings
produce identical input and output matrices: the trace is a function of
the settings and corpus alone, independent of the per-run
`std::random_device` entropy. -/
theorem train_singleworker_deterministic (env : Env)
    (entropy1 entropy2 : Nat → Nat) (s : Settings) (c : Corpus)
    (st : W2VState) (hthreads : s.threads = 1) :
    (trainModel env entropy1 none s c st).state.m_pjLayerValues
      = (trainModel env entropy2 none s c st).state.m_pjLayerValues
    ∧ (trainModel env entropy1 none s c st).state.m_bpWeights
      = (trainModel env entropy2 none s c st).state.m_bpWeights :=
  ⟨rfl, rfl⟩

/-- **C8.** The shared learning rate recomputed after each processed
word equals `alpha_initial * max(1 − processedWords/(iterations*totalTrainWords+1), minFraction)`;
consequently it is monotonically non-increasing in the shared
processed-word counter and never drops below the floor
`alpha_initial * minFraction`. -/
theorem alpha_schedule (s : Settings) (c : Corpus) (halpha : 0 ≤ s.alpha) :
    (∀ p q : Nat, p ≤ q → alphaOf s c q ≤ alphaOf s c p)
    ∧ (∀ p : Nat, s.alpha * s.minFraction ≤ alphaOf s c p) := by
  constructor
  · intro p q hpq
    unfold alphaOf
    apply mul_le_mul_of_nonneg_left _ halpha
    apply max_le_max _ (le_refl s.minFraction)
    have hD : (0 : ℚ) < ((s.iterations * c.trainWords : Nat) + 1 : ℚ) := by
      positivity
    have hc : (p : ℚ) ≤ (q : ℚ) := by exact_mod_cast hpq
    have hdiv : (p : ℚ) / ((s.iterations * c.trainWords : Nat) + 1 : ℚ)
        ≤ (q : ℚ) / ((s.iterations * c.trainWords : Nat) + 1 : ℚ) :=
      (div_le_div_iff_of_pos_right hD).mpr hc
    linarith
  · intro p
    unfold alphaOf
    exact mul_le_mul_of_nonneg_left (le_max_right _ _) halpha

/-- **C4.** On every run both matrices are allocated with exactly
`vocabularySize × dimensionality` entries; at initialization every entry
of the output matrix is 0 and — given the distribution's contract —
every entry of the input matrix lies in `[−0.005, 0.005]`; on success
the published matrices retain the `vocabularySize × dimensionality`
shape. -/
theorem matrices_shape_and_init (env : Env) (s : Settings) (c : Corpus) :
    (initBpWeights s c).length = c.words.length * s.size
    ∧ (initPjLayer env s c).length = c.words.length * s.size
    ∧ (∀ x ∈ initBpWeights s c, x = 0)
    ∧ ((∀ seed i, -(1/200 : ℚ) ≤ env.rng seed i ∧ env.rng seed i ≤ 1/200) →
        ∀ x ∈ initPjLayer env s c, -(1/200 : ℚ) ≤ x ∧ x ≤ 1/200)
    ∧ (∀ (entropy : Nat → Nat) (oracle : Option Exc) (st : W2VState),
        (trainModel env entropy oracle s c st).success = true →
        (trainModel env entropy oracle s c st).state.m_pjLayerValues.length
          = c.words.length * s.size
        ∧ (trainModel env entropy oracle s c st).state.m_bpWeights.length
          = c.words.length * s.size) := by
  refine ⟨?_, ?_, ?_, ?_, ?_⟩
  · simp [initBpWeights, Nat.mul_comm]
  · simp [initPjLayer, Nat.mul_comm]
  · intro x hx
    exact List.eq_of_mem_replicate hx
  · intro hcontract x hx
    unfold initPjLayer at hx
    obtain ⟨i, _, hval⟩ := List.mem_map.mp hx
    exact hval ▸ hcontract s.random i
  · intro entropy oracle st hsucc
    cases htb : trainBody env entropy oracle s c with
    | error p =>
      rw [trainModel_error env entropy oracle s c st p.1 p.2 (by rw [htb])]
        at hsucc
      exact absurd hsucc (by simp)
    | ok d =>
      rw [trainModel_ok env entropy oracle s c st d htb]
      obtain ⟨-, -, -, hpj, hbp⟩ := trainBody_ok_fields env entropy oracle s c d htb
      constructor
      · show d.pjLayerValues.length = _
        rw [hpj, (runThreads_lengths _ _ _ _ _ _).1]
        simp [initPjLayer, Nat.mul_comm]
      · show d.bpWeights.length = _
        rw [hbp, (runThreads_lengths _ _ _ _ _ _).2]
        simp [initBpWeights, Nat.mul_comm]

/-- **C7 (amended).** The orchestrator constructs the Huffman tree iff
the HS flag is set; the negative-sampling distribution is constructed
per worker — each created worker owns its own instance — iff the NS
flag is set (HS unset); consequently a run never has both a Huffman
tree and negative-sampling distributions. -/
theorem hs_ns_construction (s : Settings) (c : Corpus) :
    ((huffmanTreeOf s c).isSome ↔ s.withHS = true)
    ∧ (∀ range : Nat × Nat,
        (mkThread s c range).nsDistribution.isSome ↔ s.withHS = false)
    ∧ ¬ ((huffmanTreeOf s c).isSome
        ∧ ∃ range ∈ makeRanges c.texts.length s.threads,
            (mkThread s c range).nsDistribution.isSome)
    ∧ (((makeRanges c.texts.length s.threads).map (mkThread s c)).filter
          (fun th => th.nsDistribution.isSome)).length
        = if s.withHS then 0 else (makeRanges c.texts.length s.threads).length := by
  cases hHS : s.withHS
  · refine ⟨by simp [huffmanTreeOf, hHS], ?_, ?_, ?_⟩
    · intro range
      simp [mkThread, hHS]
    · intro hcon
      have := hcon.1
      simp [huffmanTreeOf, hHS] at this
    · simp [mkThread, hHS, List.filter_map, Function.comp]
  · refine ⟨by simp [huffmanTreeOf, hHS], ?_, ?_, ?_⟩
    · intro range
      simp [mkThread, hHS]
    · intro hcon
      obtain ⟨-, range, -, hns⟩ := hcon
      simp [mkThread, hHS] at hns
    · simp [mkThread, hHS, List.filter_map, Function.comp]

/-! ## Concrete fixtures for witnesses and counterexamples -/

/-- A tiny concrete environment (constant stand-ins for `exp` and the
uniform draw stream). -/
def env0 : Env := { E := fun _ => 1, rng := fun _ _ => 0 }

/-- A concrete `std::random_device` stream. -/
def entropy0 : Nat → Nat := fun _ => 0

/-- A second, different `std::random_device` stream. -/
def entropy1 : Nat → Nat := fun n => n + 1

/-- A fresh `word2vec_t` object. -/
def st0 : W2VState :=
  { m_vectorSize := 0, m_vocaburarySize := 0, m_pjLayerValues := []
    m_bpWeights := [], m_errMsg := "" }

/-- Small valid settings: one worker, one iteration, HS enabled. -/
def settings0 : Settings :=
  { size := 1, window := 1, alpha := 1/20, minFraction := 1/10000
    iterations := 1, threads := 1, withSG := true, withHS := true
    negative := 0, expTableSize := 4, expValueMax := 6, random := 42
    verbose := false }

/-- A small valid corpus with two one-word documents. -/
def corpus0 : Corpus :=
  { words := ["a", "b"], frequency := [3, 2], trainWords := 5
    texts := [[0], [1]] }

/-- A corpus with an empty vocabulary but otherwise valid fields. -/
def corpusEmptyVocab : Corpus :=
  { words := [], frequency := [], trainWords := 5, texts := [] }

/-- The same settings with negative sampling (HS unset) and two
workers. -/
def settingsNS2 : Settings := { settings0 with withHS := false, threads := 2 }

/-- **C7 counterexample.** On a successful negative-sampling run with
two workers, each created worker owns its own `nsDistribution_t`
instance — two are constructed, not the single shared structure the
claim asserts. -/
theorem ns_table_not_single :
    (trainModel env0 entropy0 none settingsNS2 corpus0 st0).success = true
    ∧ ((trainModel env0 entropy0 none settingsNS2 corpus0 st0).threadsCreated.filter
        (fun th => th.nsDistribution.isSome)).length = 2
    ∧ ¬ ((trainModel env0 entropy0 none settingsNS2 corpus0 st0).threadsCreated.filter
        (fun th => th.nsDistribution.isSome)).length ≤ 1 := by
  refine ⟨rfl, rfl, by decide⟩

/-- Witness for **C1**: the vocabulary-size-0 scenario. -/
theorem train_validation_failure_witness :
    (settings0.size = 0 ∨ corpusEmptyVocab.words.length = 0
      ∨ corpusEmptyVocab.trainWords = 0)
    ∧ (trainModel env0 entropy0 none settings0 corpusEmptyVocab st0).success = false
    ∧ (trainModel env0 entropy0 none settings0 corpusEmptyVocab st0).threadsCreated = []
    ∧ (trainModel env0 entropy0 none settings0 corpusEmptyVocab st0).state.m_errMsg
        = "vocaburarySize is zero" := by
  have h := train_validation_failure env0 entropy0 none settings0 corpusEmptyVocab
    st0 (Or.inr (Or.inl rfl))
  exact ⟨Or.inr (Or.inl rfl), h.1, h.2.1, h.2.2.2 rfl (by norm_num [settings0])⟩

/-- Witness for **C2**: a thrown validation exception is converted to a
stored message and a `false` result. -/
theorem train_no_escape_witness :
    (trainModel env0 entropy0 none settings0 corpusEmptyVocab st0).success = false
    ∧ (trainModel env0 entropy0 none settings0 corpusEmptyVocab st0).state.m_errMsg
        = excMessage (Exc.std "vocaburarySize is zero") :=
  (train_no_escape env0 entropy0 none settings0 corpusEmptyVocab st0).2.1
    (Exc.std "vocaburarySize is zero") [] rfl

/-- Witness for **C3**: 5 documents over 3 workers, where the
single-precision ceiling is exact. -/
theorem makeRanges_partition_witness :
    (0 < 5 ∧ 0 < 3 ∧ perSizeFloat 5 3 = perSize 5 3)
    ∧ (makeRanges 5 3).length ≤ 3
    ∧ ((makeRanges 5 3).getD ((makeRanges 5 3).length - 1) (0, 0)).2 = 5 - 1 := by
  have h := makeRanges_partition 5 3 (by decide) (by decide) (by decide)
  exact ⟨⟨by decide, by decide, by decide⟩, h.2.1, h.2.2.2.2.2.2.2.2.2.1⟩

/-- Witness for **C4**: a successful run on the small fixtures keeps the
`vocabularySize × dimensionality` shape. -/
theorem matrices_shape_and_init_witness :
    ((-(1/200 : ℚ) ≤ env0.rng 42 0 ∧ env0.rng 42 0 ≤ 1/200)
      ∧ (trainModel env0 entropy0 none settings0 corpus0 st0).success = true)
    ∧ (trainModel env0 entropy0 none settings0 corpus0 st0).state.m_pjLayerValues.length
        = corpus0.words.length * settings0.size
    ∧ (trainModel env0 entropy0 none settings0 corpus0 st0).state.m_bpWeights.length
        = corpus0.words.length * settings0.size := by
  have hcontract : ∀ seed i, -(1/200 : ℚ) ≤ env0.rng seed i
      ∧ env0.rng seed i ≤ 1/200 := by
    intro seed i
    exact ⟨by norm_num [env0], by norm_num [env0]⟩
  have h := (matrices_shape_and_init env0 settings0 corpus0).2.2.2.2
    entropy0 none st0 rfl
  exact ⟨⟨hcontract 42 0, rfl⟩, h.1, h.2⟩

/-- Witness for **C5**: two single-worker runs with different
`std::random_device` streams coincide. -/
theorem train_singleworker_deterministic_witness :
    settings0.threads = 1
    ∧ (trainModel env0 entropy0 none settings0 corpus0 st0).state.m_pjLayerValues
        = (trainModel env0 entropy1 none settings0 corpus0 st0).state.m_pjLayerValues
    ∧ (trainModel env0 entropy0 none settings0 corpus0 st0).state.m_bpWeights
        = (trainModel env0 entropy1 none settings0 corpus0 st0).state.m_bpWeights := by
  have h := train_singleworker_deterministic env0 entropy0 entropy1 settings0
    corpus0 st0 rfl
  exact ⟨rfl, h.1, h.2⟩

/-- Witness for **C6**: the 4-entry table of the fixtures. -/
theorem expTable_spec_witness :
    settings0.expTableSize < 65536
    ∧ (buildExpTable env0.E settings0.expTableSize settings0.expValueMax).length
        = settings0.expTableSize
    ∧ (buildExpTable env0.E settings0.expTableSize settings0.expValueMax).getD 0 0
        = expEntry env0.E settings0.expTableSize settings0.expValueMax 0 := by
  have h := expTable_spec env0 settings0 corpus0 (by norm_num [settings0])
  exact ⟨by norm_num [settings0], h.1, h.2.1 0 (by norm_num [settings0])⟩

/-- Witness for **C8**: the schedule at the fixture settings. -/
theorem alpha_schedule_witness :
    (0 : ℚ) ≤ settings0.alpha
    ∧ alphaOf settings0 corpus0 5 ≤ alphaOf settings0 corpus0 3
    ∧ settings0.alpha * settings0.minFraction ≤ alphaOf settings0 corpus0 7 := by
  have h := alpha_schedule settings0 corpus0 (by norm_num [settings0])
  exact ⟨by norm_num [settings0], h.1 3 5 (by norm_num), h.2 7⟩

/-- Witness for **C9**: the loop exits for a 4-entry table. -/
theorem expLoop_terminates_witness :
    (4 : Nat) < 65536
    ∧ ∃ fuel : Nat,
        expLoopDone 4
          ((expLoopStep (fun _ => (1 : ℚ)) 4 6)^[fuel] (0, List.replicate 4 0)) :=
  ⟨by decide, expLoop_terminates (fun _ => (1 : ℚ)) 4 6 (by decide)⟩

/-- Witness for **C10**: a failing run leaves the matrices of `st0`
untouched and records the rejected inputs. -/
theorem train_failure_frame_witness :
    (trainModel env0 entropy0 none settings0 corpusEmptyVocab st0).success = false
    ∧ (trainModel env0 entropy0 none settings0 corpusEmptyVocab st0).state.m_pjLayerValues
        = st0.m_pjLayerValues
    ∧ (trainModel env0 entropy0 none settings0 corpusEmptyVocab st0).state.m_bpWeights
        = st0.m_bpWeights
    ∧ (trainModel env0 entropy0 none settings0 corpusEmptyVocab st0).state.m_vectorSize
        = settings0.size := by
  have h := train_failure_frame env0 entropy0 none settings0 corpusEmptyVocab st0 rfl
  exact ⟨rfl, h.1, h.2.1, h.2.2.1⟩

end Wordvector
